import Mathlib

/-!
Shallow embedding of the TMS route-optimization and capacity-splitting core
of the repository (module `tms`).

Quantities that the Python source stores as floats (weights in kg, volumes
in m3, distances in km) are embedded as exact integer-scaled amounts
(`Int`): every concrete weight, volume and capacity appearing in the spec
and in the test suite is an exact multiple of the chosen unit, so the
embedding is exact on them.  Odoo record ids are embedded as `Nat`;
selection codes such as sale priorities (single characters between
the character 0 and the character 4, whose string comparison coincides with
numeric comparison) are embedded as `Nat`.

The `tms.route` model itself (nearest-neighbour optimizer, route distance,
area adjacency, route-level capacity split) is not among the source files;
only its tests, callers and wizard are.  Those operations are modelled from
the spec, as marked in their doc comments.  Everything else is translated
from `src/tms/models/stock_picking_batch.py` and
`src/tms/models/route_area.py`.
-/

/-- Vehicle capacity record (the `fleet.vehicle` fields `max_weight`,
`max_volume` read by the batch code).  The embedding assumes both
attributes exist (`hasattr` is true), which is the premise of every claim
that consults them. -/
structure FleetVehicle where
  max_weight : Int
  max_volume : Int
deriving DecidableEq, Repr

/-- One `stock.picking` as seen by `stock_picking_batch.py`:
its id, its customer's `route_area_id`, its aggregated move weight and
volume (`sum(product.weight * qty)`, `sum(product.volume * qty)`), its
customer id, its sale-order priority (`p.sale_id.priority`, absent when
there is no sale order or the field is unset), and its dates.  -/
structure StockPicking where
  pid : Nat
  partner_id : Nat
  route_area_id : Option Nat
  weight : Int
  volume : Int
  sale_priority : Option Nat
  date_deadline : Option Nat
  scheduled_date : Nat
deriving DecidableEq, Repr

/-- A `stock.picking.batch`: optional vehicle and the pickings it holds. -/
structure StockPickingBatch where
  name : String
  vehicle_id : Option FleetVehicle
  picking_ids : List StockPicking
deriving DecidableEq, Repr

/-- Total weight of a list of pickings, as accumulated by the batch code. -/
def totalWeight (l : List StockPicking) : Int :=
  (l.map StockPicking.weight).sum

/-- Total volume of a list of pickings, as accumulated by the batch code. -/
def totalVolume (l : List StockPicking) : Int :=
  (l.map StockPicking.volume).sum

/-- The sort key used at `stock_picking_batch.py:506-509`:
`(p.sale_id.priority or '0', p.date_deadline or p.scheduled_date)`. -/
def pickingSortKey (p : StockPicking) : Nat × Nat :=
  (p.sale_priority.getD 0, p.date_deadline.getD p.scheduled_date)

/-- Lexicographic comparison of sort keys: Python compares tuples
lexicographically. -/
def keyLE (a b : Nat × Nat) : Prop :=
  a.1 < b.1 ∨ (a.1 = b.1 ∧ a.2 ≤ b.2)

instance (a b : Nat × Nat) : Decidable (keyLE a b) := by
  unfold keyLE; infer_instance

/-- The ordering actually used by the code to sort an oversized area's
pickings: ascending in the raw priority code, then ascending in the
time-window start. -/
def pickingSortLE (p q : StockPicking) : Prop :=
  keyLE (pickingSortKey p) (pickingSortKey q)

instance (p q : StockPicking) : Decidable (pickingSortLE p q) := by
  unfold pickingSortLE; infer_instance

instance : IsTotal StockPicking pickingSortLE := by
  constructor
  intro a b
  unfold pickingSortLE keyLE
  omega

instance : IsTrans StockPicking pickingSortLE := by
  constructor
  intro a b c hab hbc
  unfold pickingSortLE keyLE at *
  omega

/-- The stable sort `area_data['pickings'].sorted(key=...)` at
`stock_picking_batch.py:506-509` (Odoo recordset sort is Python's stable
`sorted`; `List.insertionSort` with a total preorder is likewise stable). -/
def sortPickings (l : List StockPicking) : List StockPicking :=
  List.insertionSort pickingSortLE l

/-- The routes-needed arithmetic of `stock_picking_batch.py:501-502`:
`int(x / cap) + (1 if x % cap > 0 else 0)`.  For the nonnegative
weights and positive capacities arising here, Python's truncating
`int` of the float quotient is the floor, i.e. Euclidean `Int` division. -/
def codeCeilDiv (x cap : Int) : Int :=
  x / cap + (if x % cap > 0 then 1 else 0)

/-- The route count `routes_needed = max(routes_needed_weight,
routes_needed_volume, 1)` of `stock_picking_batch.py:503`. -/
def routes_needed (w v mw mv : Int) : Int :=
  max (max (codeCeilDiv w mw) (codeCeilDiv v mv)) 1

/-- The chunk sizes produced by the loop at `stock_picking_batch.py:512-521`:
`pickings_per_route = n // r`, `remaining = n % r`, and route index `i`
receives one extra picking iff `i < remaining`. -/
def chunkSizes (n r : Nat) : List Nat :=
  (List.range r).map fun i => n / r + if i < n % r then 1 else 0

/-- Successive slices `l[start : start + size]` taken by the loop at
`stock_picking_batch.py:517-525`. -/
def takeChunks {α : Type} : List α → List Nat → List (List α)
  | _, [] => []
  | l, s :: ss => l.take s :: takeChunks (l.drop s) ss

/-- The per-area split of `action_create_area_split_batch_if_needed`
(`stock_picking_batch.py:495-534`): sort the area's pickings, compute
`routes_needed` from the area totals, slice into near-equal chunks, and
keep only the nonempty chunks (`if route_pickings:` guards sub-batch
creation). -/
def splitPickingsForArea (pickings : List StockPicking) (mw mv : Int) :
    List (List StockPicking) :=
  let sortedPickings := sortPickings pickings
  let r := (routes_needed (totalWeight pickings) (totalVolume pickings) mw mv).toNat
  (takeChunks sortedPickings (chunkSizes sortedPickings.length r)).filter
    fun c => !c.isEmpty

/-- Insert one element into an association list of groups, preserving
first-appearance key order (the iteration order of a Python dict). -/
def insertGrouped {α : Type} (k : Nat) (x : α) :
    List (Nat × List α) → List (Nat × List α)
  | [] => [(k, [x])]
  | (k2, g) :: rest =>
    if k2 = k then (k2, g ++ [x]) :: rest else (k2, g) :: insertGrouped k x rest

/-- Grouping a list by a `Nat` key into a Python-dict-like association
list: groups appear in first-appearance order, members in list order. -/
def orderedGroupBy {α : Type} (key : α → Nat) (l : List α) :
    List (Nat × List α) :=
  l.foldl (fun acc x => insertGrouped (key x) x acc) []

/-- The `area_picking_map` grouping of `stock_picking_batch.py:450-473`:
pickings grouped by their customer's area id, `0` for pickings without an
area (Odoo record ids are positive, so `0` cannot collide). -/
def groupPickingsByArea (l : List StockPicking) : List (Nat × List StockPicking) :=
  orderedGroupBy (fun p => p.route_area_id.getD 0) l

/-- The `area_counts` tally of `stock_picking_batch.py:117-121`: for each
area id that some picking's customer carries, how many such pickings, in
first-appearance order. -/
def areaCounts (l : List StockPicking) : List (Nat × Nat) :=
  (orderedGroupBy (fun p => p.route_area_id.getD 0) (l.filter fun p => p.route_area_id.isSome)).map
    fun g => (g.1, g.2.length)

/-- Python's `max(area_counts, key=area_counts.get)`: scan left to right
keeping the current maximum, replacing only on strict improvement, so the
first key attaining the maximal count wins; `none` on an empty tally. -/
def argmaxFirst : List (Nat × Nat) → Option Nat
  | [] => none
  | g :: rest =>
    some (rest.foldl (fun best h => if h.2 > best.2 then h else best) g).1

/-- The `main_area_id` computation of `stock_picking_batch.py:112-125`. -/
def mainAreaOf (l : List StockPicking) : Option Nat :=
  argmaxFirst (areaCounts l)

/-- The per-partner stop data built at `stock_picking_batch.py:218-244`:
pickings grouped by customer in first-appearance order; each group becomes
one `tms.route.stop`. -/
def partnerStops (l : List StockPicking) : List (Nat × List StockPicking) :=
  orderedGroupBy StockPicking.partner_id l

/-- Outcome of `action_create_tms_route_single`
(`stock_picking_batch.py:94-256`): an early warning notification when the
batch already has a route, a raised `ValidationError` (nothing created), or
a created route with its main area and its per-partner stops. -/
inductive CreateRouteOutcome where
  | alreadyExists
  | validationFailure (msg : String)
  | created (mainArea : Option Nat) (stops : List (Nat × List StockPicking))
deriving DecidableEq, Repr

/-- True exactly on the `validationFailure` outcome (a raised exception). -/
def isValidationFailure : CreateRouteOutcome → Bool
  | .validationFailure _ => true
  | _ => false

/-- Embedding of `action_create_tms_route_single`
(`stock_picking_batch.py:94-256`).  `existing_route` is the result of the
`tms.route` search on line 99.  The capacity check runs only when a
vehicle is assigned (the `hasattr` guards are modelled as true, matching
the claims' premise); `max_weight or 0` is the identity on the numeric
field and is embedded as the field itself. -/
def action_create_tms_route_single (b : StockPickingBatch)
    (existing_route : Bool) : CreateRouteOutcome :=
  if existing_route then .alreadyExists
  else
    let total_weight := totalWeight b.picking_ids
    let total_volume := totalVolume b.picking_ids
    match b.vehicle_id with
    | some veh =>
      if total_weight > veh.max_weight ∨ total_volume > veh.max_volume then
        let oversized := b.picking_ids.filter fun p =>
          p.weight > veh.max_weight ∨ p.volume > veh.max_volume
        if oversized.isEmpty then
          .validationFailure "The total batch weight or volume exceeds vehicle capacity."
        else
          .validationFailure "The following individual pickings exceed vehicle capacity."
      else .created (mainAreaOf b.picking_ids) (partnerStops b.picking_ids)
    | none => .created (mainAreaOf b.picking_ids) (partnerStops b.picking_ids)

/-- Outcome of `action_create_area_split_batch_if_needed`
(`stock_picking_batch.py:413-565`): a client notification with the given
title, a delegation to `action_create_tms_route` when no area exceeds
capacity, or the created sub-batches (one per nonempty chunk) together
with the success flag of the per-sub-batch route creations. -/
inductive BatchSplitOutcome where
  | notification (title : String)
  | normalRouteCreation (b : StockPickingBatch)
  | subBatchesCreated (subBatches : List (List StockPicking)) (success : Bool)
deriving DecidableEq, Repr

/-- Embedding of `action_create_area_split_batch_if_needed`
(`stock_picking_batch.py:413-565`).  Sub-batches inherit the vehicle, so a
chunk whose totals exceed capacity makes the nested
`action_create_tms_route` raise; the exception is caught and recorded
(lines 537-541), yielding the partial-success notification. -/
def action_create_area_split_batch_if_needed (b : StockPickingBatch) :
    BatchSplitOutcome :=
  match b.vehicle_id with
  | none => .notification "No Vehicle Assigned"
  | some veh =>
    let area_ids := b.picking_ids.filterMap StockPicking.route_area_id
    if area_ids.isEmpty then .notification "No Areas Defined"
    else
      let groups := groupPickingsByArea b.picking_ids
      let exceeded := groups.filter fun g =>
        totalWeight g.2 > veh.max_weight ∨ totalVolume g.2 > veh.max_volume
      if exceeded.isEmpty then .normalRouteCreation b
      else
        let subs := exceeded.flatMap fun g =>
          splitPickingsForArea g.2 veh.max_weight veh.max_volume
        let success := subs.all fun chunk =>
          !(isValidationFailure (action_create_tms_route_single
              { b with picking_ids := chunk } false))
        .subBatchesCreated subs success

/-- The values dictionary passed to `route.area` `create`
(`route_area.py:72-77`): `none` models a key absent from `vals`. -/
structure RouteAreaVals where
  name : Option String
  code : Option String
deriving DecidableEq, Repr

/-- Embedding of `RouteArea._generate_code_from_name` (`route_area.py:79-84`):
`name.upper().replace(' ', '_').replace('-', '_')`, or `'UNNAMED_AREA'` for a
falsy name.  Python's `upper` and single-character `replace` act
character-wise (the names in play are ASCII), so they are embedded as maps
over the character list. -/
def _generate_code_from_name (name : String) : String :=
  if name ≠ "" then
    String.mk (((name.data.map Char.toUpper).map fun c =>
      if c = ' ' then '_' else c).map fun c => if c = '-' then '_' else c)
  else "UNNAMED_AREA"

/-- The `code` stored by `RouteArea.create` (`route_area.py:72-77`): kept as
supplied unless the key is absent or falsy, in which case it is generated
from `vals.get('name', '')`. -/
def route_area_create_code (vals : RouteAreaVals) : String :=
  match vals.code with
  | none => _generate_code_from_name (vals.name.getD "")
  | some c => if c = "" then _generate_code_from_name (vals.name.getD "") else c

/-- One `tms.route.stop`.  The `tms.route.stop` model is not among the
source files; the fields here are the ones its tests and the spec data
model (section 3) give a stop: id, customer coordinates (scaled
micro-degrees), area, demand, priority tier and time window. -/
structure RouteStop where
  sid : Nat
  partner_lat : Int
  partner_lon : Int
  area_id : Option Nat
  total_weight : Int
  total_volume : Int
  priority : Nat
  time_window_start : Nat
deriving DecidableEq, Repr

/-- A `tms.route`: optional vehicle, optional area, owned stops.  The
`tms.route` model is not among the source files; these are the fields its
tests and callers use. -/
structure TmsRoute where
  vehicle_id : Option FleetVehicle
  area_id : Option Nat
  stop_ids : List RouteStop
deriving DecidableEq, Repr

/-- Strict comparison between two candidate next stops, seen from the stop
`last`: smaller distance wins, ties go to the lower stop id (spec section
4.2: deterministic tie-breaking by lowest identity).  The distance function
`d` is a parameter throughout: the haversine formula of the missing
`tms.route` model uses floating-point trigonometry, which this embedding
abstracts. -/
def stopKeyLt (d : RouteStop → RouteStop → Int) (last s t : RouteStop) : Prop :=
  d last s < d last t ∨ (d last s = d last t ∧ s.sid < t.sid)

instance (d : RouteStop → RouteStop → Int) (last s t : RouteStop) :
    Decidable (stopKeyLt d last s t) := by
  unfold stopKeyLt; infer_instance

/-- Modelled from the spec: the selection step of the nearest-neighbour
heuristic of `tms.route._optimize_stops_by_distance` (missing from the
source files; spec section 4.2).  Scans the remaining stops keeping the
current best and the passed-over stops in order; returns the chosen stop
and the others. -/
def pickNearest (d : RouteStop → RouteStop → Int) (last : RouteStop) :
    RouteStop → List RouteStop → List RouteStop → RouteStop × List RouteStop
  | best, acc, [] => (best, acc.reverse)
  | best, acc, s :: rest =>
    if stopKeyLt d last s best then pickNearest d last s (best :: acc) rest
    else pickNearest d last best (s :: acc) rest

/-- Modelled from the spec: the greedy loop of
`tms.route._optimize_stops_by_distance` (missing from the source files;
spec section 4.2): repeatedly append the unvisited stop nearest to the
last visited one.  The fuel argument is the number of remaining stops. -/
def nnRoute (d : RouteStop → RouteStop → Int) :
    Nat → RouteStop → List RouteStop → List RouteStop
  | 0, _, _ => []
  | _ + 1, _, [] => []
  | fuel + 1, last, s :: rest =>
    let pr := pickNearest d last s [] rest
    pr.1 :: nnRoute d fuel pr.1 pr.2

/-- Modelled from the spec: `tms.route._optimize_stops_by_distance`
(missing from the source files; spec section 4.2): keep the first stop as
the anchor and order the rest by the nearest-neighbour heuristic. -/
def _optimize_stops_by_distance (d : RouteStop → RouteStop → Int)
    (stops : List RouteStop) : List RouteStop :=
  match stops with
  | [] => []
  | s :: rest => s :: nnRoute d rest.length s rest

/-- Modelled from the spec: `tms.route._calculate_route_distance` (missing
from the source files; spec section 4.2): the sum of the distances between
consecutive stops, `0` for fewer than two stops. -/
def _calculate_route_distance (d : RouteStop → RouteStop → Int) :
    List RouteStop → Int
  | [] => 0
  | [_] => 0
  | a :: b :: rest => d a b + _calculate_route_distance d (b :: rest)

/-- A `route.area` record as consulted by the adjacency check: its unique
code.  -/
structure RouteAreaRec where
  code : String
deriving DecidableEq, Repr

/-- Modelled from the spec: `tms.route._check_areas_adjacent` (missing from
the source files; spec section 4.3 and the adjacency tests): absent areas
are compatible with anything, equal codes are adjacent, and only otherwise
is the geographic-proximity computation `prox` (abstracted as a parameter)
consulted. -/
def _check_areas_adjacent (prox : RouteAreaRec → RouteAreaRec → Bool) :
    Option RouteAreaRec → Option RouteAreaRec → Bool
  | none, _ => true
  | _, none => true
  | some a, some b => if a.code = b.code then true else prox a b

/-- Total weight of a list of route stops. -/
def stopsWeight (l : List RouteStop) : Int :=
  (l.map RouteStop.total_weight).sum

/-- Total volume of a list of route stops. -/
def stopsVolume (l : List RouteStop) : Int :=
  (l.map RouteStop.total_volume).sum

/-- Modelled from the spec: the stop ordering used by the route-level
capacity split (spec section 4.4): priority descending, then time-window
start ascending. -/
def stopSplitLE (s t : RouteStop) : Prop :=
  t.priority < s.priority ∨
    (t.priority = s.priority ∧ s.time_window_start ≤ t.time_window_start)

instance (s t : RouteStop) : Decidable (stopSplitLE s t) := by
  unfold stopSplitLE; infer_instance

/-- Modelled from the spec: the per-area partition of
`splitOversizedAreas` (spec section 4.4), reusing the chunking scheme of
the batch-level split in the source. -/
def splitStopsForArea (stops : List RouteStop) (mw mv : Int) :
    List (List RouteStop) :=
  let sortedStops := List.insertionSort stopSplitLE stops
  let r := (routes_needed (stopsWeight stops) (stopsVolume stops) mw mv).toNat
  (takeChunks sortedStops (chunkSizes sortedStops.length r)).filter
    fun c => !c.isEmpty

/-- Outcome of the route-level capacity split: a client notification with
the given title, or the created sub-routes. -/
inductive RouteSplitOutcome where
  | notification (title : String)
  | subRoutesCreated (subRoutes : List (List RouteStop))
deriving DecidableEq, Repr

/-- Modelled from the spec: `tms.route.action_split_route_by_area_capacity`
(missing from the source files; spec sections 4.4 and 6, and the
no-vehicle test): with no vehicle assigned the operation is a no-op that
reports a no-vehicle notification and never reaches the capacity
arithmetic; otherwise the stops are grouped by area and every area
exceeding capacity is partitioned, each chunk beyond the first spinning
off a draft sub-route. -/
def action_split_route_by_area_capacity (r : TmsRoute) : RouteSplitOutcome :=
  match r.vehicle_id with
  | none => .notification "No Vehicle Assigned"
  | some veh =>
    let groups := orderedGroupBy (fun s => s.area_id.getD 0) r.stop_ids
    let exceeded := groups.filter fun g =>
      stopsWeight g.2 > veh.max_weight ∨ stopsVolume g.2 > veh.max_volume
    if exceeded.isEmpty then .notification "No Split Needed"
    else
      .subRoutesCreated (exceeded.flatMap fun g =>
        (splitStopsForArea g.2 veh.max_weight veh.max_volume).drop 1)

/-- Outcome of the fleet-wide distance optimization for one route. -/
inductive FleetOptimizeOutcome where
  | noVehicleNotification
  | optimized (stops : List RouteStop)
deriving DecidableEq, Repr

/-- Modelled from the spec: `tms.route.action_optimize_all_routes_for_distance`
(missing from the source files; spec section 6 and the no-vehicle test):
a route with no vehicle assigned is reported as a no-vehicle result rather
than optimized or failed. -/
def action_optimize_all_routes_for_distance
    (d : RouteStop → RouteStop → Int) (r : TmsRoute) : FleetOptimizeOutcome :=
  match r.vehicle_id with
  | none => .noVehicleNotification
  | some _ => .optimized (_optimize_stops_by_distance d r.stop_ids)

/-- The division-plus-remainder arithmetic of the code equals the exact
ceiling of the rational quotient, for nonnegative load and positive
capacity. -/
theorem codeCeilDiv_eq_ceil (x cap : Int) (_hx : 0 ≤ x) (hcap : 0 < cap) :
    codeCeilDiv x cap = ⌈(x : ℚ) / (cap : ℚ)⌉ := by
  have hqm : cap * (x / cap) + x % cap = x := Int.ediv_add_emod x cap
  have hm0 : 0 ≤ x % cap := Int.emod_nonneg x (ne_of_gt hcap)
  have hmlt : x % cap < cap := Int.emod_lt_of_pos x hcap
  have hcapQ : (0 : ℚ) < (cap : ℚ) := by exact_mod_cast hcap
  unfold codeCeilDiv
  by_cases h : x % cap > 0
  · rw [if_pos h]
    symm
    rw [Int.ceil_eq_iff]
    constructor
    · push_cast
      rw [lt_div_iff₀ hcapQ]
      have : (cap : ℚ) * ((x / cap : Int) : ℚ) + ((x % cap : Int) : ℚ) = (x : ℚ) := by
        exact_mod_cast congrArg (fun z : Int => (z : ℚ)) hqm
      have hmQ : (0 : ℚ) < ((x % cap : Int) : ℚ) := by exact_mod_cast h
      nlinarith
    · push_cast
      rw [div_le_iff₀ hcapQ]
      have : (cap : ℚ) * ((x / cap : Int) : ℚ) + ((x % cap : Int) : ℚ) = (x : ℚ) := by
        exact_mod_cast congrArg (fun z : Int => (z : ℚ)) hqm
      have hmQ : ((x % cap : Int) : ℚ) < (cap : ℚ) := by exact_mod_cast hmlt
      nlinarith
  · rw [if_neg h]
    have hm : x % cap = 0 := le_antisymm (not_lt.mp h) hm0
    have hx2 : x = cap * (x / cap) := by omega
    have : (x : ℚ) / (cap : ℚ) = ((x / cap : Int) : ℚ) := by
      rw [hx2]
      push_cast
      field_simp
    rw [this, Int.ceil_intCast]
    omega

/-- C4: for every area whose aggregated weight and volume are nonnegative
and every positive vehicle capacity, the number of resulting routes
computed by `action_create_area_split_batch_if_needed` equals
`max(ceil(areaWeight / maxWeight), ceil(areaVolume / maxVolume), 1)`: the
integer-division-plus-remainder computation in the code is the
mathematical ceiling of the rational quotient. -/
theorem routes_needed_eq_ceil (w v mw mv : Int) (hw : 0 ≤ w) (hv : 0 ≤ v)
    (hmw : 0 < mw) (hmv : 0 < mv) :
    routes_needed w v mw mv =
      max (max ⌈(w : ℚ) / (mw : ℚ)⌉ ⌈(v : ℚ) / (mv : ℚ)⌉) 1 := by
  unfold routes_needed
  rw [codeCeilDiv_eq_ceil w mw hw hmw, codeCeilDiv_eq_ceil v mv hv hmv]

/-- Witness for C4 at the spec's numbers: area totals 1250 kg and 125 m3
against capacities 1000 kg and 50 m3. -/
theorem routes_needed_eq_ceil_witness :
    (0 : Int) ≤ 1250 ∧ (0 : Int) ≤ 125 ∧ (0 : Int) < 1000 ∧ (0 : Int) < 50 ∧
    routes_needed 1250 125 1000 50 =
      max (max ⌈(1250 : ℚ) / (1000 : ℚ)⌉ ⌈(125 : ℚ) / (50 : ℚ)⌉) 1 :=
  ⟨by decide, by decide, by decide, by decide,
    routes_needed_eq_ceil 1250 125 1000 50 (by decide) (by decide) (by decide)
      (by decide)⟩

/-- Concatenating the chunks recovers the prefix of the list covered by
the chunk sizes. -/
theorem takeChunks_flatten {α : Type} (sizes : List Nat) (l : List α) :
    (takeChunks l sizes).flatten = l.take sizes.sum := by
  induction sizes generalizing l with
  | nil => simp [takeChunks]
  | cons s ss ih =>
    simp only [takeChunks, List.flatten_cons, ih, List.sum_cons]
    rw [List.take_add]

/-- Sum of a constant-plus-indicator map over an index range. -/
theorem sum_range_base_indicator (k q m : Nat) :
    ((List.range k).map fun i => q + if i < m then 1 else 0).sum =
      k * q + min m k := by
  induction k with
  | zero => simp
  | succ k ih =>
    rw [List.range_succ, List.map_append, List.sum_append, ih, Nat.succ_mul]
    simp only [List.map_cons, List.map_nil, List.sum_cons, List.sum_nil]
    by_cases h : k < m
    · rw [if_pos h]
      omega
    · rw [if_neg h]
      omega

/-- The chunk sizes of the splitting loop cover the whole list: their sum
is the number of pickings. -/
theorem chunkSizes_sum (n r : Nat) (hr : 0 < r) : (chunkSizes n r).sum = n := by
  unfold chunkSizes
  rw [sum_range_base_indicator]
  have hlt : n % r < r := Nat.mod_lt n hr
  rw [Nat.min_eq_left (le_of_lt hlt)]
  exact Nat.div_add_mod n r

/-- Dropping empty chunks does not change the concatenation. -/
theorem flatten_filter_not_isEmpty {α : Type} (L : List (List α)) :
    (L.filter fun c => !c.isEmpty).flatten = L.flatten := by
  induction L with
  | nil => rfl
  | cons c cs ih =>
    by_cases h : c.isEmpty
    · have hc : c = [] := List.isEmpty_iff.mp h
      simp [List.filter_cons, h, hc, ih]
    · simp [List.filter_cons, h, ih]

/-- The number of routes demanded by the splitting code is always at least
one. -/
theorem routes_needed_toNat_pos (w v mw mv : Int) :
    0 < (routes_needed w v mw mv).toNat := by
  have h1 : (1 : Int) ≤ routes_needed w v mw mv := le_max_right _ _
  omega

/-- An area whose weight strictly exceeds a positive capacity demands at
least two routes. -/
theorem codeCeilDiv_two_le (x cap : Int) (hcap : 0 < cap) (hlt : cap < x) :
    2 ≤ codeCeilDiv x cap := by
  have hq1 : 1 ≤ x / cap := by
    rw [Int.le_ediv_iff_mul_le hcap]
    omega
  have hqm : cap * (x / cap) + x % cap = x := Int.ediv_add_emod x cap
  have hm0 : 0 ≤ x % cap := Int.emod_nonneg x (ne_of_gt hcap)
  unfold codeCeilDiv
  by_cases h : x % cap > 0
  · rw [if_pos h]; omega
  · rw [if_neg h]
    have hm : x % cap = 0 := le_antisymm (not_lt.mp h) hm0
    have hx2 : cap * (x / cap) = x := by omega
    have : 1 < x / cap := by
      by_contra hc
      have hq : x / cap = 1 := le_antisymm (not_lt.mp hc) hq1
      rw [hq] at hx2
      omega
    omega

/-- Explicit first two chunk sizes when at least two routes are needed. -/
theorem chunkSizes_two (n k : Nat) :
    chunkSizes n (k + 2) =
      (n / (k + 2) + if 0 < n % (k + 2) then 1 else 0) ::
      (n / (k + 2) + if 1 < n % (k + 2) then 1 else 0) ::
      ((List.range k).map fun i => n / (k + 2) + if i + 2 < n % (k + 2) then 1 else 0) := by
  unfold chunkSizes
  rw [List.range_succ_eq_map, List.range_succ_eq_map]
  simp only [List.map_cons, List.map_map, Function.comp, Nat.succ_eq_add_one]
  norm_num

/-- A list of chunks whose first two members are nonempty keeps at least
two members after the nonempty filter. -/
theorem filter_not_isEmpty_two {α : Type} (c0 c1 : List α) (L : List (List α))
    (h0 : c0.isEmpty = false) (h1 : c1.isEmpty = false) :
    2 ≤ ((c0 :: c1 :: L).filter fun c => !c.isEmpty).length := by
  simp [List.filter_cons, h0, h1]

/-- C1 (amended): splitting an area of at least two stops whose total
weight strictly exceeds a positive vehicle capacity produces at least two
sub-batches, and the concatenation of all sub-batches is a permutation of
the area's stops (each stop exactly once).  The chunking is by stop count,
so no bound on the weight of an individual sub-batch is produced. -/
theorem splitPickingsForArea_oversized (pickings : List StockPicking)
    (mw mv : Int) (hn : 2 ≤ pickings.length) (hmw : 0 < mw) (_hmv : 0 < mv)
    (hw : mw < totalWeight pickings) :
    2 ≤ (splitPickingsForArea pickings mw mv).length ∧
    (splitPickingsForArea pickings mw mv).flatten.Perm pickings := by
  have hperm : (sortPickings pickings).Perm pickings :=
    List.perm_insertionSort _ _
  have hlen : (sortPickings pickings).length = pickings.length := hperm.length_eq
  set sp := sortPickings pickings with hsp
  set R := (routes_needed (totalWeight pickings) (totalVolume pickings) mw mv).toNat
    with hR
  have h2r : 2 ≤ R := by
    have h1 : 2 ≤ codeCeilDiv (totalWeight pickings) mw :=
      codeCeilDiv_two_le _ _ hmw hw
    have h2 : codeCeilDiv (totalWeight pickings) mw ≤
        routes_needed (totalWeight pickings) (totalVolume pickings) mw mv :=
      le_trans (le_max_left _ _) (le_max_left _ _)
    omega
  have hsplit : splitPickingsForArea pickings mw mv =
      (takeChunks sp (chunkSizes sp.length R)).filter fun c => !c.isEmpty := by
    simp only [splitPickingsForArea]
  constructor
  · rw [hsplit]
    obtain ⟨k, hk⟩ : ∃ k, R = k + 2 := ⟨R - 2, by omega⟩
    rw [hk, chunkSizes_two]
    set n := sp.length with hnn
    set q := n / (k + 2) with hq
    set m := n % (k + 2) with hm
    have hdm : (k + 2) * q + m = n := Nat.div_add_mod n (k + 2)
    have hmlt : m < k + 2 := Nat.mod_lt n (by omega)
    have hn2 : 2 ≤ n := by omega
    have hbounds : 1 ≤ q + (if 0 < m then 1 else 0) ∧
        1 ≤ q + (if 1 < m then 1 else 0) ∧
        q + (if 0 < m then 1 else 0) < n := by
      rcases Nat.eq_zero_or_pos q with hq0 | hq0
      · rw [hq0] at hdm
        by_cases hm0 : 0 < m
        · by_cases hm1 : 1 < m
          · simp only [if_pos hm0, if_pos hm1]
            omega
          · omega
        · omega
      · have h2q : 2 * q ≤ (k + 2) * q := Nat.mul_le_mul_right q (by omega)
        by_cases hm0 : 0 < m
        · by_cases hm1 : 1 < m
          · simp only [if_pos hm0, if_pos hm1]
            omega
          · simp only [if_pos hm0, if_neg hm1]
            omega
        · simp only [if_neg hm0]
          omega
    obtain ⟨hs0, hs1, hs0n⟩ := hbounds
    simp only [takeChunks]
    apply filter_not_isEmpty_two
    · have hlpos : 0 < (sp.take (q + if 0 < m then 1 else 0)).length := by
        rw [List.length_take]
        omega
      cases hcase : sp.take (q + if 0 < m then 1 else 0) with
      | nil => rw [hcase] at hlpos; simp at hlpos
      | cons a l => rfl
    · have hlpos : 0 <
          ((sp.drop (q + if 0 < m then 1 else 0)).take
            (q + if 1 < m then 1 else 0)).length := by
        rw [List.length_take, List.length_drop]
        omega
      cases hcase : (sp.drop (q + if 0 < m then 1 else 0)).take
          (q + if 1 < m then 1 else 0) with
      | nil => rw [hcase] at hlpos; simp at hlpos
      | cons a l => rfl
  · rw [hsplit, flatten_filter_not_isEmpty, takeChunks_flatten,
      chunkSizes_sum _ _ (by omega), List.take_length]
    exact hperm

/-- A 700 kg picking in area 7, used as concrete data. -/
def pk700a : StockPicking := ⟨1, 1, some 7, 700, 1, none, none, 0⟩

/-- A second 700 kg picking in area 7, used as concrete data. -/
def pk700b : StockPicking := ⟨2, 2, some 7, 700, 1, none, none, 0⟩

/-- A single 1250 kg picking in area 7, used as concrete data. -/
def pk1250 : StockPicking := ⟨1, 1, some 7, 1250, 5, none, none, 0⟩

/-- C1 counterexample: an area consisting of one stop of weight 1250
against `maxWeight = 1000` (and volume 5 against `maxVolume = 50`) is
split into exactly one sub-batch (`routes_needed` is 2 but the second
chunk is empty and discarded), and that sub-batch's weight 1250 still
exceeds 1000: neither the at-least-two-routes part nor the
per-route-weight bound of the claim holds. -/
theorem splitPickingsForArea_single_stop_counterexample :
    (1000 : Int) < totalWeight [pk1250] ∧
    splitPickingsForArea [pk1250] 1000 50 = [[pk1250]] ∧
    (splitPickingsForArea [pk1250] 1000 50).length = 1 ∧
    totalWeight ((splitPickingsForArea [pk1250] 1000 50).flatten) = 1250 := by
  decide

/-- Witness for the amended C1 at two 700 kg stops against capacity
1000 kg / 50 m3. -/
theorem splitPickingsForArea_oversized_witness :
    2 ≤ ([pk700a, pk700b] : List StockPicking).length ∧
    (0 : Int) < 1000 ∧ (0 : Int) < 50 ∧
    (1000 : Int) < totalWeight [pk700a, pk700b] ∧
    (2 ≤ (splitPickingsForArea [pk700a, pk700b] 1000 50).length ∧
      (splitPickingsForArea [pk700a, pk700b] 1000 50).flatten.Perm
        [pk700a, pk700b]) :=
  ⟨by decide, by decide, by decide, by decide,
    splitPickingsForArea_oversized [pk700a, pk700b] 1000 50 (by decide)
      (by decide) (by decide) (by decide)⟩

/-- The ordering the spec claims for the pre-partition sort (stated here
for comparison with the code's ordering): priority descending, then
time-window start ascending. -/
def pickingSpecDescLE (p q : StockPicking) : Prop :=
  (pickingSortKey q).1 < (pickingSortKey p).1 ∨
    ((pickingSortKey q).1 = (pickingSortKey p).1 ∧
      (pickingSortKey p).2 ≤ (pickingSortKey q).2)

instance (p q : StockPicking) : Decidable (pickingSpecDescLE p q) := by
  unfold pickingSpecDescLE; infer_instance

/-- A priority-1 picking with deadline 5, used as concrete data. -/
def pkPrio1 : StockPicking := ⟨3, 3, some 7, 100, 1, some 1, some 5, 0⟩

/-- A priority-2 picking with deadline 5, used as concrete data. -/
def pkPrio2 : StockPicking := ⟨4, 4, some 7, 100, 1, some 2, some 5, 0⟩

/-- C2 counterexample: given a priority-2 and a priority-1 picking, the
code's sort puts the priority-1 picking first (the raw priority code sorts
ascending), so the result is not ordered by priority descending as the
claim states. -/
theorem sortPickings_not_priority_desc_counterexample :
    sortPickings [pkPrio2, pkPrio1] = [pkPrio1, pkPrio2] ∧
    ¬ List.Sorted pickingSpecDescLE (sortPickings [pkPrio2, pkPrio1]) := by
  constructor
  · decide
  · decide

/-- C2 (amended): before partitioning an oversized area, the code sorts
that area's pickings into a permutation of themselves ordered by the raw
sale priority code ascending and, within equal priority, by time-window
start (`date_deadline or scheduled_date`) ascending. -/
theorem sortPickings_sorted_asc (l : List StockPicking) :
    (sortPickings l).Perm l ∧ List.Sorted pickingSortLE (sortPickings l) :=
  ⟨List.perm_insertionSort pickingSortLE l,
    List.sorted_insertionSort pickingSortLE l⟩

/-- C3: every capacity-dependent operation on a batch or route with no
assigned vehicle returns its structured no-vehicle notification outcome:
the area-split batch creation from the source, and the modelled
route-level capacity split and fleet-wide optimization.  Each outcome is
produced by the early vehicle check, for arbitrary pickings and stops, so
the capacity arithmetic (and any division by a capacity) is never
reached. -/
theorem no_vehicle_ops (b : StockPickingBatch) (r : TmsRoute)
    (d : RouteStop → RouteStop → Int)
    (hb : b.vehicle_id = none) (hr : r.vehicle_id = none) :
    action_create_area_split_batch_if_needed b =
      .notification "No Vehicle Assigned" ∧
    action_split_route_by_area_capacity r =
      .notification "No Vehicle Assigned" ∧
    action_optimize_all_routes_for_distance d r = .noVehicleNotification := by
  refine ⟨?_, ?_, ?_⟩
  · simp [action_create_area_split_batch_if_needed, hb]
  · simp [action_split_route_by_area_capacity, hr]
  · simp [action_optimize_all_routes_for_distance, hr]

/-- Manhattan distance on the embedded coordinates, a concrete distance
function for witnesses. -/
def dManhattan (a b : RouteStop) : Int :=
  |a.partner_lat - b.partner_lat| + |a.partner_lon - b.partner_lon|

/-- A route stop at the first test customer's coordinates. -/
def stopN1 : RouteStop := ⟨1, 40712800, -74006000, some 7, 50, 5, 0, 0⟩

/-- A batch with no vehicle, used as concrete data. -/
def batchNoVehicle : StockPickingBatch :=
  { name := "No Vehicle Test Batch", vehicle_id := none,
    picking_ids := [pk700a] }

/-- A route with no vehicle, used as concrete data. -/
def routeNoVehicle : TmsRoute :=
  { vehicle_id := none, area_id := some 7, stop_ids := [stopN1] }

/-- Witness for C3 at a concrete vehicle-less batch and route. -/
theorem no_vehicle_ops_witness :
    batchNoVehicle.vehicle_id = none ∧ routeNoVehicle.vehicle_id = none ∧
    (action_create_area_split_batch_if_needed batchNoVehicle =
        .notification "No Vehicle Assigned" ∧
      action_split_route_by_area_capacity routeNoVehicle =
        .notification "No Vehicle Assigned" ∧
      action_optimize_all_routes_for_distance dManhattan routeNoVehicle =
        .noVehicleNotification) :=
  ⟨rfl, rfl, no_vehicle_ops batchNoVehicle routeNoVehicle dManhattan rfl rfl⟩

/-- C9 (amended): on a batch that has an assigned vehicle and no
pre-existing route, `action_create_tms_route_single` raises a
`ValidationError` (creating neither route nor stops, as the raise comes
before any creation) exactly when the batch totals exceed the vehicle
capacity, and creates the route with its per-partner stops when both
totals are within capacity. -/
theorem action_create_tms_route_single_capacity (b : StockPickingBatch)
    (veh : FleetVehicle) (hveh : b.vehicle_id = some veh) :
    (totalWeight b.picking_ids > veh.max_weight ∨
        totalVolume b.picking_ids > veh.max_volume →
      ∃ msg, action_create_tms_route_single b false = .validationFailure msg) ∧
    (totalWeight b.picking_ids ≤ veh.max_weight ∧
        totalVolume b.picking_ids ≤ veh.max_volume →
      action_create_tms_route_single b false =
        .created (mainAreaOf b.picking_ids) (partnerStops b.picking_ids)) := by
  have hred : action_create_tms_route_single b false =
      if totalWeight b.picking_ids > veh.max_weight ∨
          totalVolume b.picking_ids > veh.max_volume then
        if (b.picking_ids.filter fun p =>
            p.weight > veh.max_weight ∨ p.volume > veh.max_volume).isEmpty then
          CreateRouteOutcome.validationFailure
            "The total batch weight or volume exceeds vehicle capacity."
        else
          CreateRouteOutcome.validationFailure
            "The following individual pickings exceed vehicle capacity."
      else .created (mainAreaOf b.picking_ids) (partnerStops b.picking_ids) := by
    unfold action_create_tms_route_single
    rw [hveh]
    rfl
  constructor
  · intro h
    rw [hred, if_pos h]
    by_cases hov : ((b.picking_ids.filter fun p =>
        p.weight > veh.max_weight ∨ p.volume > veh.max_volume).isEmpty = true)
    · exact ⟨_, by rw [if_pos hov]⟩
    · exact ⟨_, by rw [if_neg hov]⟩
  · intro ⟨h1, h2⟩
    have hno : ¬ (totalWeight b.picking_ids > veh.max_weight ∨
        totalVolume b.picking_ids > veh.max_volume) := by
      push_neg
      exact ⟨h1, h2⟩
    rw [hred, if_neg hno]

/-- The test vehicle: 1000 kg and 50 m3 capacity. -/
def vehicle1000 : FleetVehicle := ⟨1000, 50⟩

/-- A batch with the test vehicle and 1400 kg of pickings, used as
concrete data. -/
def batchOver1400 : StockPickingBatch :=
  { name := "Capacity Test Batch", vehicle_id := some vehicle1000,
    picking_ids := [pk700a, pk700b] }

/-- C9 counterexample: on a batch whose totals exceed capacity but which
already has a route, `action_create_tms_route_single` returns the
already-exists warning notification and raises no `ValidationError`,
contradicting the claim as universally stated. -/
theorem action_create_tms_route_single_existing_counterexample :
    batchOver1400.vehicle_id = some vehicle1000 ∧
    totalWeight batchOver1400.picking_ids > vehicle1000.max_weight ∧
    action_create_tms_route_single batchOver1400 true = .alreadyExists ∧
    isValidationFailure (action_create_tms_route_single batchOver1400 true) =
      false := by
  decide

/-- Witness for the amended C9 at the concrete 1400 kg batch without a
pre-existing route. -/
theorem action_create_tms_route_single_capacity_witness :
    batchOver1400.vehicle_id = some vehicle1000 ∧
    (∃ msg, action_create_tms_route_single batchOver1400 false =
      .validationFailure msg) :=
  ⟨rfl,
    (action_create_tms_route_single_capacity batchOver1400 vehicle1000 rfl).1
      (Or.inl (by decide))⟩

/-- Composing the space replacement and the hyphen replacement on one
character is the single joint replacement. -/
theorem char_replace_compose (u : Char) :
    (if (if u = ' ' then '_' else u) = '-' then '_'
      else if u = ' ' then '_' else u) =
      if u = ' ' ∨ u = '-' then '_' else u := by
  by_cases h1 : u = ' '
  · simp [h1]
  · by_cases h2 : u = '-' <;> simp [h1, h2]

/-- C10: a `route.area` created without a code (key absent or empty)
stores the name uppercased with every space and every hyphen replaced by
an underscore, stores `UNNAMED_AREA` when the name is missing or empty,
and keeps an explicitly supplied nonempty code unchanged. -/
theorem route_area_create_code_spec (vals : RouteAreaVals) (nm c : String) :
    (vals.code = none ∨ vals.code = some "" → vals.name = some nm → nm ≠ "" →
      (route_area_create_code vals).data =
        (nm.data.map Char.toUpper).map fun u =>
          if u = ' ' ∨ u = '-' then '_' else u) ∧
    (vals.code = none ∨ vals.code = some "" →
      vals.name = none ∨ vals.name = some "" →
      route_area_create_code vals = "UNNAMED_AREA") ∧
    (vals.code = some c → c ≠ "" → route_area_create_code vals = c) := by
  refine ⟨?_, ?_, ?_⟩
  · intro hc hn hne
    have hgen : route_area_create_code vals =
        _generate_code_from_name (vals.name.getD "") := by
      rcases hc with hc | hc <;> simp [route_area_create_code, hc]
    rw [hgen, hn]
    have hne2 : (Option.some nm).getD "" ≠ "" := by simpa using hne
    simp only [Option.getD_some] at *
    rw [_generate_code_from_name, if_pos hne2]
    show ((nm.data.map Char.toUpper).map fun u =>
        if u = ' ' then '_' else u).map (fun u => if u = '-' then '_' else u) = _
    rw [List.map_map, List.map_map, List.map_map]
    apply List.map_congr_left
    intro u _
    simp only [Function.comp_apply]
    exact char_replace_compose u.toUpper
  · intro hc hn
    have hgen : route_area_create_code vals =
        _generate_code_from_name (vals.name.getD "") := by
      rcases hc with hc | hc <;> simp [route_area_create_code, hc]
    have hempty : vals.name.getD "" = "" := by
      rcases hn with hn | hn <;> simp [hn]
    rw [hgen, hempty]
    rfl
  · intro hc hne
    simp [route_area_create_code, hc, hne]

/-- Witness for C10: name present, code absent, name with spaces and a
hyphen; name empty; and explicit code. -/
theorem route_area_create_code_spec_witness :
    ((RouteAreaVals.mk (some "North east-1 area") none).code = none ∨
      (RouteAreaVals.mk (some "North east-1 area") none).code = some "") ∧
    (RouteAreaVals.mk (some "North east-1 area") none).name =
      some "North east-1 area" ∧
    "North east-1 area" ≠ "" ∧
    (route_area_create_code (RouteAreaVals.mk (some "North east-1 area") none)).data =
      (("North east-1 area").data.map Char.toUpper).map
        (fun u => if u = ' ' ∨ u = '-' then '_' else u) ∧
    route_area_create_code (RouteAreaVals.mk none none) = "UNNAMED_AREA" ∧
    route_area_create_code (RouteAreaVals.mk (some "South") (some "S1")) = "S1" :=
  ⟨Or.inl rfl, rfl, by decide,
    (route_area_create_code_spec (RouteAreaVals.mk (some "North east-1 area") none)
        "North east-1 area" "").1 (Or.inl rfl) rfl (by decide),
    (route_area_create_code_spec (RouteAreaVals.mk none none) "" "").2.1
      (Or.inl rfl) (Or.inl rfl),
    (route_area_create_code_spec (RouteAreaVals.mk (some "South") (some "S1"))
        "" "S1").2.2 rfl (by decide)⟩

/-- The chosen stop together with the passed-over stops is a permutation
of the current best and the scanned stops. -/
theorem pickNearest_perm (d : RouteStop → RouteStop → Int) (last : RouteStop) :
    ∀ (l acc : List RouteStop) (best : RouteStop),
      ((pickNearest d last best acc l).1 :: (pickNearest d last best acc l).2).Perm
        (best :: (acc.reverse ++ l)) := by
  intro l
  induction l with
  | nil =>
    intro acc best
    simp [pickNearest]
  | cons s rest ih =>
    intro acc best
    by_cases h : stopKeyLt d last s best
    · simp only [pickNearest, if_pos h]
      refine (ih (best :: acc) s).trans ?_
      simp only [List.reverse_cons, List.append_assoc, List.singleton_append]
      refine (List.Perm.cons s List.perm_middle).trans ?_
      refine (List.Perm.swap best s _).trans ?_
      exact List.Perm.cons best List.perm_middle.symm
    · simp only [pickNearest, if_neg h]
      have hih := ih (s :: acc) best
      simp only [List.reverse_cons, List.append_assoc,
        List.singleton_append] at hih
      exact hih

/-- The greedy loop returns a permutation of the stops it consumes. -/
theorem nnRoute_perm (d : RouteStop → RouteStop → Int) :
    ∀ (fuel : Nat) (last : RouteStop) (l : List RouteStop),
      l.length = fuel → (nnRoute d fuel last l).Perm l := by
  intro fuel
  induction fuel with
  | zero =>
    intro last l h
    rw [List.length_eq_zero] at h
    simp [nnRoute, h]
  | succ fuel ih =>
    intro last l h
    match l with
    | [] => simp at h
    | s :: rest =>
      simp only [nnRoute]
      have hp : ((pickNearest d last s [] rest).1 ::
          (pickNearest d last s [] rest).2).Perm (s :: rest) := by
        simpa using pickNearest_perm d last rest [] s
      have hlen : (pickNearest d last s [] rest).2.length = rest.length := by
        have h2 := hp.length_eq
        simp only [List.length_cons] at h2
        omega
      have hrest : rest.length = fuel := by
        simp only [List.length_cons] at h
        omega
      have hrec := ih (pickNearest d last s [] rest).1
        (pickNearest d last s [] rest).2 (by omega)
      exact (List.Perm.cons _ hrec).trans hp

/-- C5: nearest-neighbour optimization returns a list of the same length
whose multiset of stop identities equals that of the input: it only
permutes the given stops. -/
theorem optimize_stops_preserves (d : RouteStop → RouteStop → Int)
    (stops : List RouteStop) :
    (_optimize_stops_by_distance d stops).length = stops.length ∧
    ((_optimize_stops_by_distance d stops).map RouteStop.sid).Perm
      (stops.map RouteStop.sid) := by
  have hperm : (_optimize_stops_by_distance d stops).Perm stops := by
    match stops with
    | [] => exact List.Perm.refl []
    | s :: rest =>
      simp only [_optimize_stops_by_distance]
      exact List.Perm.cons s (nnRoute_perm d rest.length s rest rfl)
  exact ⟨hperm.length_eq, hperm.map RouteStop.sid⟩

/-- C6: the route distance is exactly 0 for zero or one stops, and for
longer lists it is the sum of the distances between consecutive stops in
sequence order. -/
theorem calculate_route_distance_spec (d : RouteStop → RouteStop → Int) :
    (∀ stops : List RouteStop, stops.length ≤ 1 →
      _calculate_route_distance d stops = 0) ∧
    (∀ stops : List RouteStop,
      _calculate_route_distance d stops =
        ((stops.zip stops.tail).map fun pr => d pr.1 pr.2).sum) := by
  constructor
  · intro stops h
    match stops with
    | [] => rfl
    | [s] => rfl
    | a :: b :: rest => simp at h
  · intro stops
    induction stops with
    | nil => rfl
    | cons a rest ih =>
      cases rest with
      | nil => rfl
      | cons b rest2 =>
        simp only [_calculate_route_distance, List.tail_cons, List.zip_cons_cons,
          List.map_cons, List.sum_cons] at ih ⊢
        omega

/-- Witness for C6 with the Manhattan distance: a singleton route has
distance 0, and a three-stop route's distance is the consecutive-pair
sum. -/
theorem calculate_route_distance_spec_witness :
    ([stopN1] : List RouteStop).length ≤ 1 ∧
    _calculate_route_distance dManhattan [stopN1] = 0 ∧
    _calculate_route_distance dManhattan [stopN1, stopN1, stopN1] =
      (([stopN1, stopN1, stopN1].zip ([stopN1, stopN1, stopN1] : List RouteStop).tail).map
        fun pr => dManhattan pr.1 pr.2).sum :=
  ⟨by decide, (calculate_route_distance_spec dManhattan).1 [stopN1] (by decide),
    (calculate_route_distance_spec dManhattan).2 [stopN1, stopN1, stopN1]⟩

/-- C7: the adjacency check returns true whenever either area is absent
and whenever the two codes are equal, independently of the proximity
computation; the proximity computation decides the result exactly when
both areas are present with different codes. -/
theorem check_areas_adjacent_rules (prox : RouteAreaRec → RouteAreaRec → Bool)
    (a b : Option RouteAreaRec) :
    _check_areas_adjacent prox none b = true ∧
    _check_areas_adjacent prox a none = true ∧
    (∀ x y, a = some x → b = some y → x.code = y.code →
      _check_areas_adjacent prox a b = true) ∧
    (∀ x y, a = some x → b = some y → x.code ≠ y.code →
      _check_areas_adjacent prox a b = prox x y) := by
  refine ⟨?_, ?_, ?_, ?_⟩
  · cases b <;> rfl
  · cases a <;> rfl
  · intro x y hx hy hcode
    subst hx
    subst hy
    simp [_check_areas_adjacent, hcode]
  · intro x y hx hy hcode
    subst hx
    subst hy
    simp [_check_areas_adjacent, hcode]

/-- Witness for C7 at concrete areas NORTH and SOUTH and the constant
false proximity oracle. -/
theorem check_areas_adjacent_rules_witness :
    _check_areas_adjacent (fun _ _ => false) none (some ⟨"NORTH"⟩) = true ∧
    _check_areas_adjacent (fun _ _ => false) (some ⟨"NORTH"⟩) none = true ∧
    _check_areas_adjacent (fun _ _ => false) (some ⟨"NORTH"⟩) (some ⟨"NORTH"⟩) =
      true ∧
    _check_areas_adjacent (fun _ _ => false) (some ⟨"NORTH"⟩) (some ⟨"SOUTH"⟩) =
      (fun _ _ => false) (⟨"NORTH"⟩ : RouteAreaRec) (⟨"SOUTH"⟩ : RouteAreaRec) :=
  ⟨(check_areas_adjacent_rules (fun _ _ => false) none (some ⟨"NORTH"⟩)).1,
    (check_areas_adjacent_rules (fun _ _ => false) (some ⟨"NORTH"⟩) none).2.1,
    (check_areas_adjacent_rules (fun _ _ => false) (some ⟨"NORTH"⟩)
        (some ⟨"NORTH"⟩)).2.2.1 ⟨"NORTH"⟩ ⟨"NORTH"⟩ rfl rfl rfl,
    (check_areas_adjacent_rules (fun _ _ => false) (some ⟨"NORTH"⟩)
        (some ⟨"SOUTH"⟩)).2.2.2 ⟨"NORTH"⟩ ⟨"SOUTH"⟩ rfl rfl (by decide)⟩

/-- No passed-over stop compares strictly below the chosen stop: the
selection returns a minimum of the scanned stops under the
distance-then-identity order. -/
theorem pickNearest_min (d : RouteStop → RouteStop → Int) (last : RouteStop) :
    ∀ (l acc : List RouteStop) (best : RouteStop),
      (∀ x ∈ acc, ¬ stopKeyLt d last x best) →
      ∀ x ∈ (pickNearest d last best acc l).2,
        ¬ stopKeyLt d last x (pickNearest d last best acc l).1 := by
  intro l
  induction l with
  | nil =>
    intro acc best hinv x hx
    simp only [pickNearest] at hx ⊢
    exact hinv x (List.mem_reverse.mp hx)
  | cons s rest ih =>
    intro acc best hinv x hx
    by_cases h : stopKeyLt d last s best
    · simp only [pickNearest, if_pos h] at hx ⊢
      refine ih (best :: acc) s ?_ x hx
      intro a ha
      rcases List.mem_cons.mp ha with rfl | ha
      · unfold stopKeyLt at h ⊢
        omega
      · have hab := hinv a ha
        unfold stopKeyLt at h hab ⊢
        omega
    · simp only [pickNearest, if_neg h] at hx ⊢
      refine ih (s :: acc) best ?_ x hx
      intro a ha
      rcases List.mem_cons.mp ha with rfl | ha
      · exact h
      · exact hinv a ha

/-- Scanning stops none of which compares strictly below the current best
keeps the best and the scan order unchanged. -/
theorem pickNearest_stable (d : RouteStop → RouteStop → Int) (last : RouteStop) :
    ∀ (l acc : List RouteStop) (best : RouteStop),
      (∀ x ∈ l, ¬ stopKeyLt d last x best) →
      pickNearest d last best acc l = (best, acc.reverse ++ l) := by
  intro l
  induction l with
  | nil =>
    intro acc best _
    simp [pickNearest]
  | cons s rest ih =>
    intro acc best h
    have hs : ¬ stopKeyLt d last s best := h s (List.mem_cons_self s rest)
    simp only [pickNearest, if_neg hs]
    rw [ih (s :: acc) best fun x hx => h x (List.mem_cons_of_mem s hx)]
    simp

/-- Re-running the greedy loop on its own output reproduces it. -/
theorem nnRoute_idem (d : RouteStop → RouteStop → Int) :
    ∀ (fuel : Nat) (last : RouteStop) (l : List RouteStop),
      l.length = fuel →
      nnRoute d fuel last (nnRoute d fuel last l) = nnRoute d fuel last l := by
  intro fuel
  induction fuel with
  | zero =>
    intro last l h
    simp [nnRoute]
  | succ fuel ih =>
    intro last l h
    match l with
    | [] => simp at h
    | s :: rest =>
      have hp : ((pickNearest d last s [] rest).1 ::
          (pickNearest d last s [] rest).2).Perm (s :: rest) := by
        simpa using pickNearest_perm d last rest [] s
      have hlen : (pickNearest d last s [] rest).2.length = rest.length := by
        have h2 := hp.length_eq
        simp only [List.length_cons] at h2
        omega
      have hrest : rest.length = fuel := by
        simp only [List.length_cons] at h
        omega
      have houtperm : (nnRoute d fuel (pickNearest d last s [] rest).1
          (pickNearest d last s [] rest).2).Perm
          (pickNearest d last s [] rest).2 :=
        nnRoute_perm d fuel (pickNearest d last s [] rest).1
          (pickNearest d last s [] rest).2 (by omega)
      have hmin : ∀ x ∈ nnRoute d fuel (pickNearest d last s [] rest).1
          (pickNearest d last s [] rest).2,
          ¬ stopKeyLt d last x (pickNearest d last s [] rest).1 := by
        intro x hx
        exact pickNearest_min d last rest [] s (by intro a ha; simp at ha) x
          (houtperm.subset hx)
      have hstable : pickNearest d last (pickNearest d last s [] rest).1 []
          (nnRoute d fuel (pickNearest d last s [] rest).1
            (pickNearest d last s [] rest).2) =
          ((pickNearest d last s [] rest).1,
            nnRoute d fuel (pickNearest d last s [] rest).1
              (pickNearest d last s [] rest).2) := by
        have h3 := pickNearest_stable d last
          (nnRoute d fuel (pickNearest d last s [] rest).1
            (pickNearest d last s [] rest).2) []
          (pickNearest d last s [] rest).1 hmin
        simpa using h3
      have hout : nnRoute d (fuel + 1) last (s :: rest) =
          (pickNearest d last s [] rest).1 ::
            nnRoute d fuel (pickNearest d last s [] rest).1
              (pickNearest d last s [] rest).2 := by
        simp only [nnRoute]
      rw [hout]
      have houter : nnRoute d (fuel + 1) last
          ((pickNearest d last s [] rest).1 ::
            nnRoute d fuel (pickNearest d last s [] rest).1
              (pickNearest d last s [] rest).2) =
          (pickNearest d last
            ((pickNearest d last s [] rest).1) []
            (nnRoute d fuel (pickNearest d last s [] rest).1
              (pickNearest d last s [] rest).2)).1 ::
            nnRoute d fuel
              (pickNearest d last
                ((pickNearest d last s [] rest).1) []
                (nnRoute d fuel (pickNearest d last s [] rest).1
                  (pickNearest d last s [] rest).2)).1
              (pickNearest d last
                ((pickNearest d last s [] rest).1) []
                (nnRoute d fuel (pickNearest d last s [] rest).1
                  (pickNearest d last s [] rest).2)).2 := by
        simp only [nnRoute]
      rw [houter, hstable]
      exact congrArg _ (ih (pickNearest d last s [] rest).1
        (pickNearest d last s [] rest).2 (by omega))

/-- C8: the nearest-neighbour ordering is a fixed point of the optimizer:
optimizing an already-optimized stop list changes nothing, so a second run
of the distance optimization has its before-distance equal to its
after-distance. -/
theorem optimize_stops_idempotent (d : RouteStop → RouteStop → Int)
    (stops : List RouteStop) :
    _optimize_stops_by_distance d (_optimize_stops_by_distance d stops) =
      _optimize_stops_by_distance d stops ∧
    _calculate_route_distance d
        (_optimize_stops_by_distance d (_optimize_stops_by_distance d stops)) =
      _calculate_route_distance d (_optimize_stops_by_distance d stops) := by
  have h1 : _optimize_stops_by_distance d (_optimize_stops_by_distance d stops) =
      _optimize_stops_by_distance d stops := by
    match stops with
    | [] => rfl
    | s :: rest =>
      simp only [_optimize_stops_by_distance]
      have hlen : (nnRoute d rest.length s rest).length = rest.length :=
        (nnRoute_perm d rest.length s rest rfl).length_eq
      rw [hlen]
      rw [nnRoute_idem d rest.length s rest rfl]
  exact ⟨h1, by rw [h1]⟩
